import Mathlib

/-!
Shallow embedding of the instance-backing core of the wasmer runtime
(`src/lib/runtime-core/src/memory/dynamic.rs`, `memory/mod.rs`,
`backing.rs`), together with theorems settling the claims about it.

Machine integers are modelled as `Nat` with explicit bounds where overflow
matters; raw pointers are modelled as abstract `Nat` addresses; byte
storage is modelled as `List Nat` (one entry per byte); fallible or
panicking code returns `Option`.
-/

namespace Wasmer

/-- `DYNAMIC_GUARD_SIZE` from `memory/dynamic.rs`. -/
def DYNAMIC_GUARD_SIZE : Nat := 4096

/-- `Pages::bytes`: one wasm page is 65536 bytes (`units.rs`; the spec
fixes the page size). -/
def pagesToBytes (p : Nat) : Nat := p * 65536

/-- Modelled from the spec: `Pages::checked_add` lives in `units.rs`,
which is not under `src/`; the page counter is a `u32`, so the checked
addition fails exactly when the sum overflows the `u32` counter. -/
def checkedAddPages (a b : Nat) : Option Nat :=
  if a + b < 4294967296 then some (a + b) else none

/-- A `sys::Memory` region: the address the OS chose for it plus its byte
contents.  `with_size` zero-fills; protection state is folded into the
allocation oracle (see `DynamicMemory.grow`). -/
structure SysMemory where
  ptr : Nat
  data : List Nat
  deriving Repr

/-- `vm::LocalMemory`: the base pointer and bound (in bytes) that
generated code reads.  The third field (back pointer to the storage
object) plays no role in the claims. -/
structure LocalMemory where
  base : Nat
  bound : Nat
  deriving Repr, DecidableEq

/-- `MemoryDescriptor` from `types.rs` as the spec describes it. -/
structure MemoryDescriptor where
  minimum : Nat
  maximum : Option Nat
  shared : Bool
  deriving Repr, DecidableEq

/-- `DynamicMemory` from `memory/dynamic.rs`. -/
structure DynamicMemory where
  memory : SysMemory
  current : Nat
  max : Option Nat
  deriving Repr

/-- The accessible region (`current` pages) fits inside the allocated
region — established by `new` and preserved by `grow` in the source. -/
def DynamicMemory.WF (m : DynamicMemory) : Prop :=
  pagesToBytes m.current ≤ m.memory.data.length

instance (m : DynamicMemory) : Decidable m.WF := by
  unfold DynamicMemory.WF; infer_instance

/-- An allocation oracle standing for `sys::Memory::with_size` followed by
the `protect` call: `none` models either of the two failing.  A
well-formed oracle returns a zero-filled region of the requested size. -/
def AllocWF (alloc : Nat → Option SysMemory) : Prop :=
  ∀ n m, alloc n = some m → m.data = List.replicate n 0

/-- The always-succeeding oracle (allocation at address 4096). -/
def allocAlways : Nat → Option SysMemory :=
  fun n => some ⟨4096, List.replicate n 0⟩

/-- The always-failing oracle. -/
def allocNever : Nat → Option SysMemory := fun _ => none

/-- `DynamicMemory::new` from `memory/dynamic.rs`: reserve
`minimum*65536 + DYNAMIC_GUARD_SIZE` bytes, protect the non-guard prefix
when `minimum > 0`, and publish base/bound into the VM record. -/
def DynamicMemory.new (alloc : Nat → Option SysMemory)
    (desc : MemoryDescriptor) (loc : LocalMemory) :
    Option (DynamicMemory × LocalMemory) :=
  match alloc (pagesToBytes desc.minimum + DYNAMIC_GUARD_SIZE) with
  | none => none
  | some memory =>
    some (⟨memory, desc.minimum, desc.maximum⟩,
      { loc with base := memory.ptr, bound := pagesToBytes desc.minimum })

/-- Result of `DynamicMemory::grow`: the returned `Option<Pages>`, the
memory object after the call, and the VM record after the call. -/
structure GrowOut where
  res : Option Nat
  mem : DynamicMemory
  loc : LocalMemory

/-- The tail of `DynamicMemory::grow` after the max check: fresh
allocation + protect (the oracle), byte copy of the old contents into the
new region, replacement of the stored region, base/bound update, and the
`Some(old_pages)` return. -/
def DynamicMemory.growAllocate (alloc : Nat → Option SysMemory)
    (self : DynamicMemory) (new_pages : Nat) (loc : LocalMemory) : GrowOut :=
  match alloc (pagesToBytes new_pages + DYNAMIC_GUARD_SIZE) with
  | none => ⟨none, self, loc⟩
  | some new_memory =>
    let copied : List Nat :=
      self.memory.data.take (pagesToBytes self.current) ++
        new_memory.data.drop (pagesToBytes self.current)
    let mem' : DynamicMemory :=
      { memory := ⟨new_memory.ptr, copied⟩,
        current := new_pages, max := self.max }
    ⟨some self.current, mem',
      { loc with base := new_memory.ptr,
                 bound := pagesToBytes new_pages }⟩

/-- `DynamicMemory::grow` from `memory/dynamic.rs:68-101`, statement for
statement: the `delta == 0` early return, the checked page addition, the
max check, then `DynamicMemory.growAllocate`. -/
def DynamicMemory.grow (alloc : Nat → Option SysMemory)
    (self : DynamicMemory) (delta : Nat) (loc : LocalMemory) : GrowOut :=
  if delta = 0 then
    ⟨some self.current, self, loc⟩
  else
    match checkedAddPages self.current delta with
    | none => ⟨none, self, loc⟩
    | some new_pages =>
      match self.max with
      | some max =>
        if new_pages > max then ⟨none, self, loc⟩
        else DynamicMemory.growAllocate alloc self new_pages loc
      | none => DynamicMemory.growAllocate alloc self new_pages loc

/-! ### Lemmas about `DynamicMemory.grow` -/

/-- Success facts about the allocate-and-copy tail of `grow`. -/
theorem growAllocate_success (alloc : Nat → Option SysMemory)
    (mem : DynamicMemory) (np : Nat) (loc : LocalMemory)
    (hwf : mem.WF) (prev : Nat)
    (hres : (DynamicMemory.growAllocate alloc mem np loc).res = some prev) :
    prev = mem.current ∧
    (DynamicMemory.growAllocate alloc mem np loc).mem.current = np ∧
    (DynamicMemory.growAllocate alloc mem np loc).mem.memory.data.take
        (pagesToBytes mem.current)
      = mem.memory.data.take (pagesToBytes mem.current) ∧
    (DynamicMemory.growAllocate alloc mem np loc).loc.base
      = (DynamicMemory.growAllocate alloc mem np loc).mem.memory.ptr ∧
    (DynamicMemory.growAllocate alloc mem np loc).loc.bound = pagesToBytes np := by
  cases halloc : alloc (pagesToBytes np + DYNAMIC_GUARD_SIZE) with
  | none => simp [DynamicMemory.growAllocate, halloc] at hres
  | some nm =>
    have heq : DynamicMemory.growAllocate alloc mem np loc =
        ⟨some mem.current,
         { memory := ⟨nm.ptr,
             mem.memory.data.take (pagesToBytes mem.current) ++
               nm.data.drop (pagesToBytes mem.current)⟩,
           current := np, max := mem.max },
         { loc with base := nm.ptr, bound := pagesToBytes np }⟩ := by
      simp [DynamicMemory.growAllocate, halloc]
    rw [heq] at hres ⊢
    have hprev : prev = mem.current := (Option.some.inj hres).symm
    refine ⟨hprev, rfl, ?_, rfl, rfl⟩
    have hlen : (mem.memory.data.take (pagesToBytes mem.current)).length
        = pagesToBytes mem.current := by
      simpa [List.length_take] using Nat.min_eq_left hwf
    exact List.take_left' hlen

/-- In every failure branch of `grow`, nothing is mutated. -/
theorem grow_none_unchanged (alloc : Nat → Option SysMemory)
    (mem : DynamicMemory) (delta : Nat) (loc : LocalMemory)
    (hres : (DynamicMemory.grow alloc mem delta loc).res = none) :
    (DynamicMemory.grow alloc mem delta loc).mem = mem ∧
    (DynamicMemory.grow alloc mem delta loc).loc = loc := by
  by_cases h0 : delta = 0
  · simp [DynamicMemory.grow, h0] at hres
  · cases hca : checkedAddPages mem.current delta with
    | none => simp [DynamicMemory.grow, h0, hca]
    | some np =>
      cases hm : mem.max with
      | none =>
        cases halloc : alloc (pagesToBytes np + DYNAMIC_GUARD_SIZE) with
        | none =>
          simp [DynamicMemory.grow, DynamicMemory.growAllocate, h0, hca, hm,
            halloc]
        | some nm =>
          simp [DynamicMemory.grow, DynamicMemory.growAllocate, h0, hca, hm,
            halloc] at hres
      | some max =>
        by_cases hgt : np > max
        · simp [DynamicMemory.grow, h0, hca, hm, hgt]
        · cases halloc : alloc (pagesToBytes np + DYNAMIC_GUARD_SIZE) with
          | none =>
            simp [DynamicMemory.grow, DynamicMemory.growAllocate, h0, hca, hm,
              hgt, halloc]
          | some nm =>
            simp [DynamicMemory.grow, DynamicMemory.growAllocate, h0, hca, hm,
              hgt, halloc] at hres

/-- C1: For every dynamic linear memory and every successful `grow(delta)`:
the call returns the previous page count, the new size equals old size plus
`delta`, the contents of bytes `0..old_size*65536` are preserved
bit-for-bit, the new base and bound are written into the supplied VM
memory record (for an actual growth), and `grow(Pages(0))` is a no-op
returning the current page count. -/
theorem dynamic_grow_success_spec (alloc : Nat → Option SysMemory)
    (mem : DynamicMemory) (delta : Nat) (loc : LocalMemory)
    (hwf : mem.WF) (prev : Nat)
    (hres : (DynamicMemory.grow alloc mem delta loc).res = some prev) :
    prev = mem.current ∧
    (DynamicMemory.grow alloc mem delta loc).mem.current = mem.current + delta ∧
    (DynamicMemory.grow alloc mem delta loc).mem.memory.data.take
        (pagesToBytes mem.current)
      = mem.memory.data.take (pagesToBytes mem.current) ∧
    (delta ≠ 0 →
      (DynamicMemory.grow alloc mem delta loc).loc.base
        = (DynamicMemory.grow alloc mem delta loc).mem.memory.ptr ∧
      (DynamicMemory.grow alloc mem delta loc).loc.bound
        = pagesToBytes ((DynamicMemory.grow alloc mem delta loc).mem.current)) ∧
    (delta = 0 →
      (DynamicMemory.grow alloc mem delta loc).mem = mem ∧
      (DynamicMemory.grow alloc mem delta loc).loc = loc ∧
      prev = mem.current) := by
  by_cases h0 : delta = 0
  · subst h0
    have hgrow : DynamicMemory.grow alloc mem 0 loc = ⟨some mem.current, mem, loc⟩ := by
      simp [DynamicMemory.grow]
    rw [hgrow] at hres ⊢
    have hprev : prev = mem.current := (Option.some.inj hres).symm
    exact ⟨hprev, by simp, rfl, fun h => absurd rfl h, fun _ => ⟨rfl, rfl, hprev⟩⟩
  · cases hca : checkedAddPages mem.current delta with
    | none =>
      have hnone : (DynamicMemory.grow alloc mem delta loc).res = none := by
        simp [DynamicMemory.grow, h0, hca]
      rw [hnone] at hres; exact Option.noConfusion hres
    | some np =>
      have hnp : np = mem.current + delta := by
        unfold checkedAddPages at hca
        split at hca
        · exact (Option.some.inj hca).symm
        · exact absurd hca (by simp)
      have hgrow : DynamicMemory.grow alloc mem delta loc
          = DynamicMemory.growAllocate alloc mem np loc := by
        cases hm : mem.max with
        | none => simp [DynamicMemory.grow, h0, hca, hm]
        | some max =>
          by_cases hgt : np > max
          · exfalso
            have hnone : (DynamicMemory.grow alloc mem delta loc).res = none := by
              simp [DynamicMemory.grow, h0, hca, hm, hgt]
            rw [hnone] at hres; exact Option.noConfusion hres
          · simp [DynamicMemory.grow, h0, hca, hm, hgt]
      rw [hgrow] at hres ⊢
      obtain ⟨h1, h2, h3, h4, h5⟩ :=
        growAllocate_success alloc mem np loc hwf prev hres
      exact ⟨h1, by rw [h2, hnp], h3, fun _ => ⟨h4, by rw [h5, h2]⟩,
        fun h => absurd h h0⟩

/-- Concrete state for witnesses: an empty dynamic memory with no maximum. -/
def memEmpty : DynamicMemory := ⟨⟨4096, []⟩, 0, none⟩

/-- Witness for C1: growing `memEmpty` by one page succeeds, returns the
previous count 0, yields size 1, and publishes the new base and bound. -/
theorem dynamic_grow_success_spec_witness :
    0 = memEmpty.current ∧
    (DynamicMemory.grow allocAlways memEmpty 1 ⟨0, 0⟩).mem.current
      = memEmpty.current + 1 ∧
    (DynamicMemory.grow allocAlways memEmpty 1 ⟨0, 0⟩).mem.memory.data.take
        (pagesToBytes memEmpty.current)
      = memEmpty.memory.data.take (pagesToBytes memEmpty.current) ∧
    ((1 : Nat) ≠ 0 →
      (DynamicMemory.grow allocAlways memEmpty 1 ⟨0, 0⟩).loc.base
        = (DynamicMemory.grow allocAlways memEmpty 1 ⟨0, 0⟩).mem.memory.ptr ∧
      (DynamicMemory.grow allocAlways memEmpty 1 ⟨0, 0⟩).loc.bound
        = pagesToBytes ((DynamicMemory.grow allocAlways memEmpty 1 ⟨0, 0⟩).mem.current)) ∧
    ((1 : Nat) = 0 →
      (DynamicMemory.grow allocAlways memEmpty 1 ⟨0, 0⟩).mem = memEmpty ∧
      (DynamicMemory.grow allocAlways memEmpty 1 ⟨0, 0⟩).loc = ⟨0, 0⟩ ∧
      (0 : Nat) = memEmpty.current) :=
  dynamic_grow_success_spec allocAlways memEmpty 1 ⟨0, 0⟩ (by decide) 0 (by rfl)

/-- C2: For every dynamic linear memory and every failed grow (`delta`
would exceed the maximum, or allocation or protection of the new region
fails): `grow` returns `None` and the memory state is entirely
unchanged — size, byte contents, base pointer, and bound. -/
theorem dynamic_grow_failure_unchanged (alloc : Nat → Option SysMemory)
    (mem : DynamicMemory) (delta : Nat) (loc : LocalMemory)
    (hres : (DynamicMemory.grow alloc mem delta loc).res = none) :
    (DynamicMemory.grow alloc mem delta loc).mem = mem ∧
    (DynamicMemory.grow alloc mem delta loc).loc = loc :=
  grow_none_unchanged alloc mem delta loc hres

/-- Concrete state for the C2 witness: the memory a descriptor
`{min: 1, max: 2}` produces (one accessible page plus guard). -/
def mem12 : DynamicMemory :=
  ⟨⟨4096, List.replicate (65536 + DYNAMIC_GUARD_SIZE) 0⟩, 1, some 2⟩

/-- Witness for C2, the S3 scenario: memory `{min:1, max:2}` on
`grow(Pages(2))` returns `None` and its size remains `Pages(1)`. -/
theorem dynamic_grow_failure_unchanged_witness :
    (DynamicMemory.grow allocAlways mem12 2 ⟨4096, 65536⟩).res = none ∧
    (DynamicMemory.grow allocAlways mem12 2 ⟨4096, 65536⟩).mem = mem12 ∧
    (DynamicMemory.grow allocAlways mem12 2 ⟨4096, 65536⟩).loc = ⟨4096, 65536⟩ ∧
    mem12.current = 1 ∧
    (DynamicMemory.grow allocAlways mem12 2 ⟨4096, 65536⟩).mem.current = 1 := by
  have h : (DynamicMemory.grow allocAlways mem12 2 ⟨4096, 65536⟩).res = none := by rfl
  have h2 := dynamic_grow_failure_unchanged allocAlways mem12 2 ⟨4096, 65536⟩ h
  refine ⟨h, h2.1, h2.2, rfl, ?_⟩
  rw [h2.1]
  rfl

/-- C9: For every dynamic memory: `grow(delta)` still fails (returns
`None`, memory unchanged) when the new page count `current + delta`
overflows the `u32` page counter — a failure case beyond the spec's
"exceeds max or allocation fails". -/
theorem dynamic_grow_overflow_fails (alloc : Nat → Option SysMemory)
    (mem : DynamicMemory) (delta : Nat) (loc : LocalMemory)
    (h32 : mem.current < 4294967296)
    (hov : 4294967296 ≤ mem.current + delta) :
    (DynamicMemory.grow alloc mem delta loc).res = none ∧
    (DynamicMemory.grow alloc mem delta loc).mem = mem ∧
    (DynamicMemory.grow alloc mem delta loc).loc = loc := by
  have h0 : delta ≠ 0 := by omega
  have hca : checkedAddPages mem.current delta = none := by
    unfold checkedAddPages
    rw [if_neg (by omega)]
  have hres : (DynamicMemory.grow alloc mem delta loc).res = none := by
    unfold DynamicMemory.grow
    rw [if_neg h0, hca]
  have hu := grow_none_unchanged alloc mem delta loc hres
  exact ⟨hres, hu.1, hu.2⟩

/-- State at the `u32` page-count limit for the C9 witness. -/
def memAtLimit : DynamicMemory := ⟨⟨4096, []⟩, 4294967295, none⟩

/-- Witness for C9: a memory holding `u32::MAX` pages fails to grow by
one more page and is left unchanged. -/
theorem dynamic_grow_overflow_fails_witness :
    (DynamicMemory.grow allocAlways memAtLimit 1 ⟨4096, 0⟩).res = none ∧
    (DynamicMemory.grow allocAlways memAtLimit 1 ⟨4096, 0⟩).mem = memAtLimit ∧
    (DynamicMemory.grow allocAlways memAtLimit 1 ⟨4096, 0⟩).loc = ⟨4096, 0⟩ :=
  dynamic_grow_overflow_fails allocAlways memAtLimit 1 ⟨4096, 0⟩
    (by decide) (by decide)

/-! ### Typed memory access: `Memory::read` / `Memory::write`
(`memory/mod.rs:100-135`).  Both operate on `mem_slice`, the accessible
byte region `as_slice()` of the current storage (length = bound). -/

/-- Modelled from the spec: the `ValueType` trait (`types.rs`, not under
`src/`).  `size` is `mem::size_of::<T>()`; `intoLe` is `into_le` (the
canonical little-endian byte encoding, written at the front of the target
slice); `fromLe` is `from_le` (decode from the prefix of a byte slice).
The proof fields record the trait contract the spec states: the encoding
is `size` bytes long, decoding succeeds on any slice of at least `size`
bytes, and decoding inverts encoding. -/
structure ValueTypeEnc (α : Type) where
  size : Nat
  intoLe : α → List Nat
  fromLe : List Nat → Option α
  length_intoLe : ∀ v, (intoLe v).length = size
  fromLe_intoLe : ∀ v rest, fromLe (intoLe v ++ rest) = some v
  isSome_fromLe : ∀ bs, size ≤ bs.length → (fromLe bs).isSome = true

/-- `Memory::read::<T>` from `memory/mod.rs:100-116`: if
`offset + size_of::<T>() <= mem_slice.len()` then `T::from_le` on the
slice starting at `offset`, else the unit error (modelled `none`). -/
def memoryRead {α : Type} (enc : ValueTypeEnc α) (mem_slice : List Nat)
    (offset : Nat) : Option α :=
  if offset + enc.size ≤ mem_slice.length then
    enc.fromLe (mem_slice.drop offset)
  else
    none

/-- Result of `Memory::write`: the returned `Result<(), ()>` (as
`Option Unit`) and the byte region after the call. -/
structure MemWriteOut where
  res : Option Unit
  mem_slice : List Nat

/-- `Memory::write::<T>` from `memory/mod.rs:118-135`: if
`offset + size_of::<T>() <= mem_slice.len()` then `value.into_le` writes
the value's bytes at `offset`, else the unit error and no mutation. -/
def memoryWrite {α : Type} (enc : ValueTypeEnc α) (mem_slice : List Nat)
    (offset : Nat) (value : α) : MemWriteOut :=
  if offset + enc.size ≤ mem_slice.length then
    ⟨some (),
     mem_slice.take offset ++ enc.intoLe value ++
       mem_slice.drop (offset + enc.size)⟩
  else
    ⟨none, mem_slice⟩

/-- `Memory::write_many::<u8>` from `memory/mod.rs:164-185` at byte
granularity (`size_of::<u8>() = 1`): bounds check
`offset + values.len() <= mem_slice.len()`, then copy the bytes. -/
def writeManyBytes (mem_slice : List Nat) (offset : Nat)
    (values : List Nat) : Option (List Nat) :=
  if offset + values.length ≤ mem_slice.length then
    some (mem_slice.take offset ++ values ++
      mem_slice.drop (offset + values.length))
  else
    none

/-- C6: For every memory and every value type `T`: `Memory::read::<T>(o)`
and `Memory::write::<T>(o, v)` succeed iff `o + sizeof(T)` is at most the
current accessible length in bytes (the bound); otherwise they return a
unit error without modifying the memory. -/
theorem memory_read_write_bounds {α : Type} (enc : ValueTypeEnc α)
    (mem_slice : List Nat) (offset : Nat) (value : α) :
    ((memoryRead enc mem_slice offset).isSome = true ↔
      offset + enc.size ≤ mem_slice.length) ∧
    ((memoryWrite enc mem_slice offset value).res.isSome = true ↔
      offset + enc.size ≤ mem_slice.length) ∧
    ((memoryWrite enc mem_slice offset value).res = none →
      (memoryWrite enc mem_slice offset value).mem_slice = mem_slice) := by
  by_cases h : offset + enc.size ≤ mem_slice.length
  · refine ⟨⟨fun _ => h, fun _ => ?_⟩, by simp [memoryWrite, h], ?_⟩
    · rw [memoryRead, if_pos h]
      exact enc.isSome_fromLe _ (by simp [List.length_drop]; omega)
    · rw [memoryWrite, if_pos h]
      intro hc
      exact absurd hc (by simp)
  · constructor
    · rw [memoryRead, if_neg h]
      simp [h]
    · rw [memoryWrite, if_neg h]
      simp [h]

/-- C7: For every memory, every value type `T`, every in-bounds offset `o`
and value `v`: `write::<T>(o, v)` followed by `read::<T>(o)` with no
intervening grow returns `Ok(v)` (little-endian encoding round-trips). -/
theorem memory_write_read_roundtrip {α : Type} (enc : ValueTypeEnc α)
    (mem_slice : List Nat) (offset : Nat) (value : α)
    (h : offset + enc.size ≤ mem_slice.length) :
    memoryRead enc (memoryWrite enc mem_slice offset value).mem_slice offset
      = some value := by
  have hw : (memoryWrite enc mem_slice offset value).mem_slice
      = mem_slice.take offset ++ enc.intoLe value ++
          mem_slice.drop (offset + enc.size) := by
    rw [memoryWrite, if_pos h]
  have htk : (mem_slice.take offset).length = offset := by
    simp [List.length_take]; omega
  have hlen : (memoryWrite enc mem_slice offset value).mem_slice.length
      = mem_slice.length := by
    rw [hw]
    simp [List.length_append, htk, enc.length_intoLe, List.length_drop]
    omega
  rw [memoryRead, if_pos (by rw [hlen]; exact h), hw, List.append_assoc,
    List.drop_left' htk, enc.fromLe_intoLe]

/-- A `u8` value type instance (spec: `T ∈ {i32, i64, f32, f64, u8, …}`). -/
def encU8 : ValueTypeEnc (Fin 256) where
  size := 1
  intoLe v := [v.val]
  fromLe bs :=
    match bs with
    | [] => none
    | b :: _ => some ⟨b % 256, Nat.mod_lt _ (by norm_num)⟩
  length_intoLe v := rfl
  fromLe_intoLe v rest := by
    simp only [List.cons_append]
    exact congrArg some (Fin.ext (Nat.mod_eq_of_lt v.isLt))
  isSome_fromLe bs h := by
    cases bs with
    | nil => simp at h
    | cons b t => rfl

/-- A `u32`/`i32` value type instance with the canonical little-endian
four-byte encoding. -/
def encU32 : ValueTypeEnc (Fin 4294967296) where
  size := 4
  intoLe v := [v.val % 256, v.val / 256 % 256, v.val / 65536 % 256,
    v.val / 16777216 % 256]
  fromLe bs :=
    match bs with
    | b0 :: b1 :: b2 :: b3 :: _ =>
      some ⟨b0 % 256 + 256 * (b1 % 256) + 65536 * (b2 % 256) +
        16777216 * (b3 % 256), by omega⟩
    | _ => none
  length_intoLe v := rfl
  fromLe_intoLe v rest := by
    simp only [List.cons_append]
    refine congrArg some (Fin.ext ?_)
    have hv := v.isLt
    simp only []
    omega
  isSome_fromLe bs h := by
    match bs with
    | b0 :: b1 :: b2 :: b3 :: _ => rfl
    | [] => simp at h
    | [_] => simp at h
    | [_, _] => simp at h
    | [_, _, _] => simp at h

/-- Witness for C7: writing `0xDEADBEEF` as a `u32` at offset 2 of an
8-byte memory and reading it back returns the same value. -/
theorem memory_write_read_roundtrip_witness :
    memoryRead encU32
      (memoryWrite encU32 (List.replicate 8 0) 2
        (⟨3735928559, by norm_num⟩ : Fin 4294967296)).mem_slice 2
      = some (⟨3735928559, by norm_num⟩ : Fin 4294967296) :=
  memory_write_read_roundtrip encU32 (List.replicate 8 0) 2 _ (by decide)

/-! ### Data initializers: `LocalBacking::finalize_memories`
(`backing.rs:80-133`). -/

/-- `Value` from `types.rs` as the spec lists it: a tagged
i32/i64/f32/f64 value.  Each payload is the raw bit pattern, so the
source's `offset as u32` reinterpretation of an `I32` is the identity on
the stored bits. -/
inductive Value where
  | I32 (bits : Nat)
  | I64 (bits : Nat)
  | F32 (bits : Nat)
  | F64 (bits : Nat)
  deriving Repr, DecidableEq

/-- `Initializer` from `types.rs` (spec §6):
`Const(Value) | GetGlobal(ImportedGlobalIndex)`. -/
inductive Initializer where
  | const (v : Value)
  | getGlobal (idx : Nat)
  deriving Repr, DecidableEq

/-- The two-way split `local_or_import` (`types.rs`) produces for a
combined index: the sum is modelled directly. -/
inductive LocalOrImportIdx where
  | loc (i : Nat)
  | imp (i : Nat)
  deriving Repr, DecidableEq

/-- `DataInitializer` (spec §6): target memory, base expression, payload. -/
structure DataInitializer where
  memory_index : LocalOrImportIdx
  base : Initializer
  data : List Nat
  deriving Repr, DecidableEq

/-- `vm::ImportedFunc`: function pointer plus context pointer. -/
structure ImportedFunc where
  func : Nat
  vmctx : Nat
  deriving Repr, DecidableEq

/-- The slice of `ImportBacking` that `LocalBacking` finalization reads:
the current values of the imported globals (`imports.globals[i].get()`)
and the imported-function records (`imports.vm_functions`). -/
structure ImportsView where
  globals : List Value
  vm_functions : List ImportedFunc
  deriving Repr, DecidableEq

/-- The base evaluation shared by `finalize_memories` and
`finalize_tables` (`backing.rs:91-101` / `154-164`): a `Const` must be an
`I32` (anything else panics), a `GetGlobal` reads the imported global,
which must exist and currently hold an `I32` (else panic).  `none` models
the panic, which aborts instantiation. -/
def evalInitBase (imports : ImportsView) (init : Initializer) : Option Nat :=
  match init with
  | .const (Value.I32 bits) => some bits
  | .const _ => none
  | .getGlobal idx =>
    match imports.globals.get? idx with
    | some (Value.I32 bits) => some bits
    | _ => none

/-- The imported-memory view reachable through
`imports.vm_memories[i]`: the record's `bound` and the `bound`-byte
region starting at its `base`. -/
structure ImportedMemoryView where
  bound : Nat
  data : List Nat
  deriving Repr, DecidableEq

/-- The mutable state `finalize_memories` threads: the byte contents of
each local memory (generated at its declared minimum size) and of each
imported memory's accessible region. -/
structure MemFinalizeState where
  localMems : List (List Nat)
  importedMems : List ImportedMemoryView
  deriving Repr, DecidableEq

/-- The `copy_from_slice` into `memory_slice[base..base+len]` of an
imported memory's accessible region (`backing.rs:115-123`). -/
def ImportedMemoryView.writeBytes (impMem : ImportedMemoryView)
    (base : Nat) (data : List Nat) : ImportedMemoryView :=
  { impMem with data := impMem.data.take base ++ data ++
      impMem.data.drop (base + data.length) }

/-- One step of the `finalize_memories` loop (`backing.rs:86-126`):
initializers with empty payload are skipped (the `filter`); otherwise the
base is evaluated, and then either (local target) the assertion
`minimum bytes >= base + len` runs and the payload is written with
`write_many` (whose `unwrap` panics on failure), or (imported target) the
payload is copied directly into the `base/bound` region, where an
out-of-range slice panics.  `none` models any panic, which aborts
instantiation. -/
def applyDataInit (memories : List MemoryDescriptor) (imports : ImportsView)
    (st : MemFinalizeState) (init : DataInitializer) :
    Option MemFinalizeState :=
  if init.data.length > 0 then
    match evalInitBase imports init.base with
    | none => none
    | some init_base =>
      match init.memory_index with
      | .loc i =>
        match memories.get? i, st.localMems.get? i with
        | some desc, some mem =>
          if pagesToBytes desc.minimum ≥ init_base + init.data.length then
            match writeManyBytes mem init_base init.data with
            | some mem' =>
              some { st with localMems := st.localMems.set i mem' }
            | none => none
          else none
        | _, _ => none
      | .imp i =>
        match st.importedMems.get? i with
        | some impMem =>
          if init_base + init.data.length ≤ impMem.bound then
            some { st with importedMems :=
              (st.importedMems.set i (impMem.writeBytes init_base init.data)) }
          else none
        | none => none
  else
    some st

/-- The `finalize_memories` initializer loop over the module's data
initializers in declaration order. -/
def finalizeMemories (memories : List MemoryDescriptor)
    (imports : ImportsView) (inits : List DataInitializer)
    (st : MemFinalizeState) : Option MemFinalizeState :=
  match inits with
  | [] => some st
  | init :: rest =>
    match applyDataInit memories imports st init with
    | some st' => finalizeMemories memories imports rest st'
    | none => none

/-- C10: During `LocalBacking` construction, a data initializer whose
payload is empty is skipped entirely: its base expression is never
evaluated and no bounds assertion runs, so it does not abort
instantiation and modifies no memory. -/
theorem dataInit_empty_payload_skipped (memories : List MemoryDescriptor)
    (imports : ImportsView) (st : MemFinalizeState)
    (init : DataInitializer) (h : init.data = []) :
    applyDataInit memories imports st init = some st := by
  simp [applyDataInit, h]

/-- Witness for C10: an empty-payload initializer whose base is both
out-of-range (page 100000 of a 1-page memory) and only obtainable by
evaluation is skipped: instantiation does not abort and the state is
untouched. -/
theorem dataInit_empty_payload_skipped_witness :
    applyDataInit [⟨1, some 1, false⟩] ⟨[], []⟩
      ⟨[List.replicate 65536 0], []⟩
      ⟨.loc 0, .const (Value.I32 6553600000), []⟩
      = some ⟨[List.replicate 65536 0], []⟩ :=
  dataInit_empty_payload_skipped _ _ _ _ rfl

/-! ### C4: the bounds discipline of `finalize_memories` -/

/-- The module's declared descriptor for the imported memory in the C4
counterexample scenario: minimum 1 page, maximum 2 pages.  A supplier
memory of 2 current pages fits this declaration. -/
def declaredImpMemDesc : MemoryDescriptor := ⟨1, some 2, false⟩

/-- The supplied imported memory of the C4 counterexample: currently 2
pages, so its VM record's bound is 131072 bytes. -/
def importedMemTwoPages : ImportedMemoryView :=
  ⟨131072, List.replicate 131072 0⟩

/-- Counterexample to C4 as stated: a non-empty data initializer that
targets an imported memory declared with minimum 1 page, at base 65536
with 2 payload bytes.  `base + len = 65538` exceeds the declared minimum
in bytes (65536), yet instantiation does not abort: no
declared-minimum assertion runs for imported targets; the write is only
checked against the imported record's current bound (131072). -/
theorem dataInit_minimum_assert_counterexample :
    (applyDataInit [] ⟨[], []⟩ ⟨[], [importedMemTwoPages]⟩
        ⟨.imp 0, .const (Value.I32 65536), [1, 2]⟩).isSome = true ∧
    ([1, 2] : List Nat).length > 0 ∧
    65536 + ([1, 2] : List Nat).length
      > pagesToBytes declaredImpMemDesc.minimum := by
  refine ⟨?_, by decide, by decide⟩
  rfl

/-- C4 amended: for every data initializer with non-empty payload whose
base evaluates to `base`: if it targets a local memory (declared
descriptor `desc`, contents `mem` at the declared minimum size), then the
check `base + len <= declared minimum bytes` is asserted and a violation
aborts instantiation, and on success the payload is written at `base`
into that local memory; if it targets an imported memory, the payload is
written at `base` directly into the imported memory's raw byte region via
its base/bound and the abort condition is `base + len <= bound` (the
record's current bound), not the declared minimum. -/
theorem applyDataInit_spec (memories : List MemoryDescriptor)
    (imports : ImportsView) (st : MemFinalizeState)
    (init : DataInitializer) (base : Nat)
    (hne : 0 < init.data.length)
    (hbase : evalInitBase imports init.base = some base) :
    (∀ i desc mem, init.memory_index = .loc i →
      memories.get? i = some desc →
      st.localMems.get? i = some mem →
      mem.length = pagesToBytes desc.minimum →
      (((applyDataInit memories imports st init).isSome = true) ↔
        base + init.data.length ≤ pagesToBytes desc.minimum) ∧
      (∀ st', applyDataInit memories imports st init = some st' →
        st'.localMems.get? i = some (mem.take base ++ init.data ++
          mem.drop (base + init.data.length)) ∧
        st'.importedMems = st.importedMems)) ∧
    (∀ i impMem, init.memory_index = .imp i →
      st.importedMems.get? i = some impMem →
      (((applyDataInit memories imports st init).isSome = true) ↔
        base + init.data.length ≤ impMem.bound) ∧
      (∀ st', applyDataInit memories imports st init = some st' →
        st'.importedMems.get? i = some (impMem.writeBytes base init.data) ∧
        st'.localMems = st.localMems)) := by
  constructor
  · intro i desc mem hidx hdesc hmem hlen
    have hi : i < st.localMems.length := List.get?_eq_some.mp hmem |>.1
    rw [List.get?_eq_getElem?] at hdesc hmem
    by_cases hbound : base + init.data.length ≤ pagesToBytes desc.minimum
    · have hwrite : writeManyBytes mem base init.data
          = some (mem.take base ++ init.data ++
              mem.drop (base + init.data.length)) := by
        rw [writeManyBytes, if_pos (by omega)]
      have happ : applyDataInit memories imports st init
          = some { st with localMems :=
              (st.localMems.set i (mem.take base ++ init.data ++
                mem.drop (base + init.data.length))) } := by
        simp [applyDataInit, hne, hbase, hidx, hdesc, hmem,
          ge_iff_le, hbound, hwrite]
      refine ⟨⟨fun _ => hbound, fun _ => by simp [happ]⟩, ?_⟩
      intro st' hst'
      rw [happ] at hst'
      cases hst'
      refine ⟨?_, rfl⟩
      rw [List.get?_eq_getElem?]
      exact List.getElem?_set_eq_of_lt _ hi
    · have happ : applyDataInit memories imports st init = none := by
        simp [applyDataInit, hne, hbase, hidx, hdesc, hmem,
          ge_iff_le, hbound]
      rw [happ]
      exact ⟨by simpa using hbound, fun st' hst' => Option.noConfusion hst'⟩
  · intro i impMem hidx hmem
    have hi : i < st.importedMems.length := List.get?_eq_some.mp hmem |>.1
    rw [List.get?_eq_getElem?] at hmem
    by_cases hbound : base + init.data.length ≤ impMem.bound
    · have happ : applyDataInit memories imports st init
          = some { st with importedMems :=
              (st.importedMems.set i (impMem.writeBytes base init.data)) } := by
        simp [applyDataInit, hne, hbase, hidx, hmem, hbound]
      refine ⟨⟨fun _ => hbound, fun _ => by simp [happ]⟩, ?_⟩
      intro st' hst'
      rw [happ] at hst'
      cases hst'
      refine ⟨?_, rfl⟩
      rw [List.get?_eq_getElem?]
      exact List.getElem?_set_eq_of_lt _ hi
    · have happ : applyDataInit memories imports st init = none := by
        simp [applyDataInit, hne, hbase, hidx, hmem, hbound]
      rw [happ]
      exact ⟨by simpa using hbound, fun st' hst' => Option.noConfusion hst'⟩

/-- The scenario S1 memory declaration: `{min: 1 page, max: 1}`. -/
def memDescS1 : MemoryDescriptor := ⟨1, some 1, false⟩

/-- Fresh 1-page local memory contents. -/
def memS1 : List Nat := List.replicate 65536 0

/-- The scenario S1 data initializer:
`{mem 0, base = Const(I32(0)), data = [0xDE, 0xAD, 0xBE, 0xEF]}`. -/
def initS1 : DataInitializer :=
  ⟨.loc 0, .const (Value.I32 0), [222, 173, 190, 239]⟩

/-- Witness for the amended C4, scenario S1: the in-bounds local
initializer succeeds and writes its payload at base 0. -/
theorem applyDataInit_spec_witness :
    (((applyDataInit [memDescS1] ⟨[], []⟩ ⟨[memS1], []⟩ initS1).isSome
        = true) ↔
      0 + initS1.data.length ≤ pagesToBytes memDescS1.minimum) ∧
    (∀ st', applyDataInit [memDescS1] ⟨[], []⟩ ⟨[memS1], []⟩ initS1
        = some st' →
      st'.localMems.get? 0 = some (memS1.take 0 ++ initS1.data ++
        memS1.drop (0 + initS1.data.length)) ∧
      st'.importedMems = (⟨[memS1], []⟩ : MemFinalizeState).importedMems) :=
  (applyDataInit_spec [memDescS1] ⟨[], []⟩ ⟨[memS1], []⟩ initS1 0
      (by decide) rfl).1 0 memDescS1 memS1 rfl rfl rfl
    (by rw [memS1, List.length_replicate]; rfl)

/-! ### Element initializers: `LocalBacking::finalize_tables`
(`backing.rs:147-245`). -/

/-- `vm::Anyfunc`: the `(func, ctx, sig_id)` indirect-call table entry. -/
structure Anyfunc where
  func : Nat
  ctx : Nat
  sig_id : Nat
  deriving Repr, DecidableEq

/-- Modelled from the spec (§4.3): `Table` lives in `table.rs`, not under
`src/`.  A table is an ordered sequence of entries, each an anyfunc or
empty (`none`), with an optional maximum. -/
structure TableState where
  elements : List (Option Anyfunc)
  maximum : Option Nat
  deriving Repr, DecidableEq

/-- Modelled from the spec (§4.3): `Table::grow(delta)` appends `delta`
empty entries subject to `maximum`; `none` models its failure (the
`expect` in `finalize_tables` panics on it). -/
def TableState.grow (t : TableState) (delta : Nat) : Option TableState :=
  match t.maximum with
  | some m =>
    if t.elements.length + delta > m then none
    else some { t with elements := t.elements ++ List.replicate delta none }
  | none => some { t with elements := t.elements ++ List.replicate delta none }

/-- `ElemInitializer` (spec §6): target table, base expression, payload of
function indices. -/
structure ElemInitializer where
  table_index : LocalOrImportIdx
  base : Initializer
  elements : List LocalOrImportIdx
  deriving Repr, DecidableEq

/-- One resolution step of the element write loop (`backing.rs:177-196`):
signature id from the module's `func_assoc` (indexing panics if absent),
function pointer via the code generator's `func_resolver` for a local
function (`unwrap` panics on failure) or via the `ImportBacking`'s
`vm_functions` for an imported one (indexing panics when out of range),
and the context: this instance's `vmctx` for local functions, or the
supplied context of the import for imported ones. -/
def resolveAnyfunc (func_assoc : LocalOrImportIdx → Option Nat)
    (func_resolver : Nat → Option Nat) (vm_functions : List ImportedFunc)
    (vmctx : Nat) (func_index : LocalOrImportIdx) : Option Anyfunc :=
  match func_assoc func_index with
  | none => none
  | some sig_index =>
    match func_index with
    | .loc l =>
      match func_resolver l with
      | some f => some ⟨f, vmctx, sig_index⟩
      | none => none
    | .imp k =>
      match vm_functions.get? k with
      | some r => some ⟨r.func, r.vmctx, sig_index⟩
      | none => none

/-- The `elements[init_base + i] = Anyfunc { func, ctx, sig_id }` write
loop of `finalize_tables` over the payload, carrying the running index. -/
def writeAnyfuncs (func_assoc : LocalOrImportIdx → Option Nat)
    (func_resolver : Nat → Option Nat) (vm_functions : List ImportedFunc)
    (vmctx : Nat) (init_base : Nat) :
    List LocalOrImportIdx → List (Option Anyfunc) → Nat →
      Option (List (Option Anyfunc))
  | [], slots, _ => some slots
  | fi :: rest, slots, i =>
    match resolveAnyfunc func_assoc func_resolver vm_functions vmctx fi with
    | none => none
    | some af =>
      writeAnyfuncs func_assoc func_resolver vm_functions vmctx init_base
        rest (slots.set (init_base + i) (some af)) (i + 1)

/-- The per-table body shared by the two textually identical arms of
`finalize_tables` (`backing.rs:167-236`): grow the table by the exact
shortfall when `init_base + len` exceeds its current size, then run the
write loop over the payload under `anyfunc_direct_access_mut`. -/
def applyElemToTable (func_assoc : LocalOrImportIdx → Option Nat)
    (func_resolver : Nat → Option Nat) (vm_functions : List ImportedFunc)
    (vmctx : Nat) (init_base : Nat) (elems : List LocalOrImportIdx)
    (table : TableState) : Option TableState :=
  let grown :=
    if table.elements.length < init_base + elems.length then
      table.grow (init_base + elems.length - table.elements.length)
    else some table
  match grown with
  | none => none
  | some table' =>
    match writeAnyfuncs func_assoc func_resolver vm_functions vmctx
        init_base elems table'.elements 0 with
    | none => none
    | some slots => some { table' with elements := slots }

/-- The mutable state `finalize_tables` threads: the local tables and the
imported table handles (`imports.tables`). -/
structure TableFinalizeState where
  localTables : List TableState
  importedTables : List TableState
  deriving Repr, DecidableEq

/-- One step of the `finalize_tables` loop (`backing.rs:153-238`):
evaluate the base, split the target index into local or imported, and
apply the shared per-table body to the targeted table. -/
def applyElemInit (func_assoc : LocalOrImportIdx → Option Nat)
    (func_resolver : Nat → Option Nat) (imports : ImportsView)
    (vmctx : Nat) (st : TableFinalizeState) (init : ElemInitializer) :
    Option TableFinalizeState :=
  match evalInitBase imports init.base with
  | none => none
  | some init_base =>
    match init.table_index with
    | .loc i =>
      match st.localTables.get? i with
      | none => none
      | some table =>
        match applyElemToTable func_assoc func_resolver imports.vm_functions
            vmctx init_base init.elements table with
        | none => none
        | some table' =>
          some { st with localTables := (st.localTables.set i table') }
    | .imp i =>
      match st.importedTables.get? i with
      | none => none
      | some table =>
        match applyElemToTable func_assoc func_resolver imports.vm_functions
            vmctx init_base init.elements table with
        | none => none
        | some table' =>
          some { st with importedTables := (st.importedTables.set i table') }

/-- What a successful `resolveAnyfunc` yields, unfolded into the claim's
case split on local versus imported function indices. -/
theorem resolveAnyfunc_cases (fa : LocalOrImportIdx → Option Nat)
    (fr : Nat → Option Nat) (vfs : List ImportedFunc) (vmctx : Nat)
    (fi : LocalOrImportIdx) (af : Anyfunc)
    (h : resolveAnyfunc fa fr vfs vmctx fi = some af) :
    ∃ sig, fa fi = some sig ∧
      ((∃ l f, fi = .loc l ∧ fr l = some f ∧ af = ⟨f, vmctx, sig⟩) ∨
       (∃ k r, fi = .imp k ∧ vfs.get? k = some r ∧
         af = ⟨r.func, r.vmctx, sig⟩)) := by
  cases fi with
  | loc l =>
    cases hfa : fa (LocalOrImportIdx.loc l) with
    | none =>
      simp only [resolveAnyfunc, hfa] at h
      exact Option.noConfusion h
    | some sig =>
      cases hfr : fr l with
      | none =>
        simp only [resolveAnyfunc, hfa, hfr] at h
        exact Option.noConfusion h
      | some f =>
        simp only [resolveAnyfunc, hfa, hfr] at h
        exact ⟨sig, rfl, Or.inl ⟨l, f, rfl, hfr, (Option.some.inj h).symm⟩⟩
  | imp k =>
    cases hfa : fa (LocalOrImportIdx.imp k) with
    | none =>
      simp only [resolveAnyfunc, hfa] at h
      exact Option.noConfusion h
    | some sig =>
      cases hvf : vfs.get? k with
      | none =>
        simp only [resolveAnyfunc, hfa, hvf] at h
        exact Option.noConfusion h
      | some r =>
        simp only [resolveAnyfunc, hfa, hvf] at h
        exact ⟨sig, rfl, Or.inr ⟨k, r, rfl, hvf, (Option.some.inj h).symm⟩⟩

/-- Induction workhorse for the element write loop: on success the slot
array keeps its length, slots below the write window are untouched, and
slot `init_base + i + j` holds the resolution of the `j`-th payload
entry. -/
theorem writeAnyfuncs_spec (fa : LocalOrImportIdx → Option Nat)
    (fr : Nat → Option Nat) (vfs : List ImportedFunc) (vmctx base : Nat)
    (elems : List LocalOrImportIdx) :
    ∀ (slots : List (Option Anyfunc)) (i : Nat)
      (out : List (Option Anyfunc)),
      base + i + elems.length ≤ slots.length →
      writeAnyfuncs fa fr vfs vmctx base elems slots i = some out →
      out.length = slots.length ∧
      (∀ k, k < base + i → out.get? k = slots.get? k) ∧
      (∀ j, (hj : j < elems.length) →
        ∃ af, resolveAnyfunc fa fr vfs vmctx (elems.get ⟨j, hj⟩) = some af ∧
          out.get? (base + i + j) = some (some af)) := by
  induction elems with
  | nil =>
    intro slots i out hlen hw
    rw [writeAnyfuncs] at hw
    cases hw
    exact ⟨rfl, fun k _ => rfl, fun j hj => absurd hj (Nat.not_lt_zero j)⟩
  | cons fi rest ih =>
    intro slots i out hlen hw
    rw [writeAnyfuncs] at hw
    cases hres : resolveAnyfunc fa fr vfs vmctx fi with
    | none => rw [hres] at hw; exact Option.noConfusion hw
    | some af =>
      rw [hres] at hw
      have hbi : base + i < slots.length := by
        simp only [List.length_cons] at hlen; omega
      have hlen' : base + (i + 1) + rest.length
          ≤ (slots.set (base + i) (some af)).length := by
        rw [List.length_set]
        simp only [List.length_cons] at hlen; omega
      obtain ⟨h1, h2, h3⟩ := ih (slots.set (base + i) (some af)) (i + 1) out
        hlen' hw
      refine ⟨by rw [h1, List.length_set], ?_, ?_⟩
      · intro k hk
        rw [h2 k (by omega), List.get?_eq_getElem?, List.get?_eq_getElem?,
          List.getElem?_set_ne (by omega)]
      · intro j hj
        cases j with
        | zero =>
          refine ⟨af, hres, ?_⟩
          have hpres := h2 (base + i) (by omega)
          rw [Nat.add_zero, hpres, List.get?_eq_getElem?,
            List.getElem?_set_eq_of_lt _ hbi]
        | succ j' =>
          have hj' : j' < rest.length := Nat.lt_of_succ_lt_succ hj
          obtain ⟨af', ha, hb⟩ := h3 j' hj'
          refine ⟨af', by simpa using ha, ?_⟩
          have harith : base + i + (j' + 1) = base + (i + 1) + j' := by omega
          rw [harith]; exact hb

/-- What the shared per-table body guarantees on success: grown by
exactly the shortfall when needed (size untouched otherwise), and each
payload entry resolved and written at `init_base + j`. -/
theorem applyElemToTable_spec (fa : LocalOrImportIdx → Option Nat)
    (fr : Nat → Option Nat) (vfs : List ImportedFunc) (vmctx : Nat)
    (init_base : Nat) (elems : List LocalOrImportIdx) (table : TableState)
    (out : TableState)
    (happ : applyElemToTable fa fr vfs vmctx init_base elems table
      = some out) :
    (table.elements.length < init_base + elems.length →
      out.elements.length = init_base + elems.length) ∧
    (¬ table.elements.length < init_base + elems.length →
      out.elements.length = table.elements.length) ∧
    (∀ j, (hj : j < elems.length) →
      ∃ af, resolveAnyfunc fa fr vfs vmctx (elems.get ⟨j, hj⟩) = some af ∧
        out.elements.get? (init_base + j) = some (some af)) := by
  rw [applyElemToTable] at happ
  by_cases hneed : table.elements.length < init_base + elems.length
  · simp only [hneed, if_pos] at happ
    cases hg : table.grow (init_base + elems.length - table.elements.length) with
    | none => rw [hg] at happ; exact Option.noConfusion happ
    | some table' =>
      rw [hg] at happ
      dsimp only at happ
      have hlen' : table'.elements.length = init_base + elems.length := by
        cases hmax : table.maximum with
        | none =>
          simp only [TableState.grow, hmax] at hg
          injection hg with hg'
          rw [← hg']
          simp only [List.length_append, List.length_replicate]
          omega
        | some m =>
          simp only [TableState.grow, hmax] at hg
          by_cases hover : table.elements.length +
              (init_base + elems.length - table.elements.length) > m
          · rw [if_pos hover] at hg
            exact Option.noConfusion hg
          · rw [if_neg hover] at hg
            injection hg with hg'
            rw [← hg']
            simp only [List.length_append, List.length_replicate]
            omega
      cases hw : writeAnyfuncs fa fr vfs vmctx init_base elems
          table'.elements 0 with
      | none => rw [hw] at happ; exact Option.noConfusion happ
      | some slots =>
        rw [hw] at happ
        dsimp only at happ
        cases happ
        obtain ⟨h1, _, h3⟩ := writeAnyfuncs_spec fa fr vfs vmctx init_base
          elems table'.elements 0 slots (by omega) hw
        refine ⟨fun _ => by simp [h1, hlen'], fun hc => absurd hneed hc, ?_⟩
        intro j hj
        obtain ⟨af, ha, hb⟩ := h3 j hj
        exact ⟨af, ha, by simpa using hb⟩
  · simp only [hneed, if_neg, if_false] at happ
    cases hw : writeAnyfuncs fa fr vfs vmctx init_base elems
        table.elements 0 with
    | none => rw [hw] at happ; exact Option.noConfusion happ
    | some slots =>
      rw [hw] at happ
      dsimp only at happ
      cases happ
      obtain ⟨h1, _, h3⟩ := writeAnyfuncs_spec fa fr vfs vmctx init_base
        elems table.elements 0 slots (by omega) hw
      refine ⟨fun hc => absurd hc hneed, fun _ => by simp [h1], ?_⟩
      intro j hj
      obtain ⟨af, ha, hb⟩ := h3 j hj
      exact ⟨af, ha, by simpa using hb⟩

/-- Unfolds the slot facts of `applyElemToTable_spec` through
`resolveAnyfunc_cases` into the claim's explicit local/imported split. -/
theorem elemSlots_characterize (fa : LocalOrImportIdx → Option Nat)
    (fr : Nat → Option Nat) (vfs : List ImportedFunc) (vmctx base : Nat)
    (elems : List LocalOrImportIdx) (table' : TableState)
    (h : ∀ j, (hj : j < elems.length) →
      ∃ af, resolveAnyfunc fa fr vfs vmctx (elems.get ⟨j, hj⟩) = some af ∧
        table'.elements.get? (base + j) = some (some af)) :
    ∀ j, (hj : j < elems.length) →
      ∃ sig, fa (elems.get ⟨j, hj⟩) = some sig ∧
        ((∃ l f, elems.get ⟨j, hj⟩ = .loc l ∧ fr l = some f ∧
            table'.elements.get? (base + j) = some (some ⟨f, vmctx, sig⟩)) ∨
         (∃ k r, elems.get ⟨j, hj⟩ = .imp k ∧ vfs.get? k = some r ∧
            table'.elements.get? (base + j)
              = some (some ⟨r.func, r.vmctx, sig⟩))) := by
  intro j hj
  obtain ⟨af, ha, hb⟩ := h j hj
  obtain ⟨sig, hfa, hcase⟩ := resolveAnyfunc_cases fa fr vfs vmctx _ af ha
  refine ⟨sig, hfa, ?_⟩
  cases hcase with
  | inl hc =>
    obtain ⟨l, f, h1, h2, h3⟩ := hc
    exact Or.inl ⟨l, f, h1, h2, by rw [← h3]; exact hb⟩
  | inr hc =>
    obtain ⟨k, r, h1, h2, h3⟩ := hc
    exact Or.inr ⟨k, r, h1, h2, by rw [← h3]; exact hb⟩

/-- C5: For every element initializer applied during `LocalBacking`
construction: if base plus the number of elements exceeds the current
table size, the table is grown by exactly the shortfall (and keeps its
size otherwise); then for each function index in the payload, the
signature id is taken from the module's `func_assoc`, the function
pointer is resolved via `func_resolver` for local functions or via the
`ImportBacking` for imported ones, the context is this instance's VM
context for local functions or the import's supplied context for
imported ones, and the `{func, ctx, sig_id}` triple is written to table
slot `base + i`.  Both the local-table and the imported-table arm behave
this way. -/
theorem applyElemInit_spec (fa : LocalOrImportIdx → Option Nat)
    (fr : Nat → Option Nat) (imports : ImportsView) (vmctx : Nat)
    (st : TableFinalizeState) (init : ElemInitializer) (base : Nat)
    (st' : TableFinalizeState)
    (hbase : evalInitBase imports init.base = some base)
    (happ : applyElemInit fa fr imports vmctx st init = some st') :
    (∀ i table, init.table_index = .loc i →
      st.localTables.get? i = some table →
      st'.importedTables = st.importedTables ∧
      ∃ table', st'.localTables.get? i = some table' ∧
        (table.elements.length < base + init.elements.length →
          table'.elements.length = base + init.elements.length) ∧
        (¬ table.elements.length < base + init.elements.length →
          table'.elements.length = table.elements.length) ∧
        (∀ j, (hj : j < init.elements.length) →
          ∃ sig, fa (init.elements.get ⟨j, hj⟩) = some sig ∧
            ((∃ l f, init.elements.get ⟨j, hj⟩ = .loc l ∧ fr l = some f ∧
                table'.elements.get? (base + j)
                  = some (some ⟨f, vmctx, sig⟩)) ∨
             (∃ k r, init.elements.get ⟨j, hj⟩ = .imp k ∧
                imports.vm_functions.get? k = some r ∧
                table'.elements.get? (base + j)
                  = some (some ⟨r.func, r.vmctx, sig⟩))))) ∧
    (∀ i table, init.table_index = .imp i →
      st.importedTables.get? i = some table →
      st'.localTables = st.localTables ∧
      ∃ table', st'.importedTables.get? i = some table' ∧
        (table.elements.length < base + init.elements.length →
          table'.elements.length = base + init.elements.length) ∧
        (¬ table.elements.length < base + init.elements.length →
          table'.elements.length = table.elements.length) ∧
        (∀ j, (hj : j < init.elements.length) →
          ∃ sig, fa (init.elements.get ⟨j, hj⟩) = some sig ∧
            ((∃ l f, init.elements.get ⟨j, hj⟩ = .loc l ∧ fr l = some f ∧
                table'.elements.get? (base + j)
                  = some (some ⟨f, vmctx, sig⟩)) ∨
             (∃ k r, init.elements.get ⟨j, hj⟩ = .imp k ∧
                imports.vm_functions.get? k = some r ∧
                table'.elements.get? (base + j)
                  = some (some ⟨r.func, r.vmctx, sig⟩))))) := by
  constructor
  · intro i table hidx htab
    have hi : i < st.localTables.length := List.get?_eq_some.mp htab |>.1
    simp only [applyElemInit, hbase, hidx] at happ
    rw [htab] at happ
    dsimp only at happ
    cases hat : applyElemToTable fa fr imports.vm_functions vmctx base
        init.elements table with
    | none => rw [hat] at happ; exact Option.noConfusion happ
    | some table' =>
      rw [hat] at happ
      dsimp only at happ
      cases happ
      obtain ⟨hA, hB, hC⟩ := applyElemToTable_spec fa fr imports.vm_functions
        vmctx base init.elements table table' hat
      refine ⟨rfl, table', ?_, hA, hB,
        elemSlots_characterize fa fr imports.vm_functions vmctx base
          init.elements table' hC⟩
      rw [List.get?_eq_getElem?]
      exact List.getElem?_set_eq_of_lt _ hi
  · intro i table hidx htab
    have hi : i < st.importedTables.length := List.get?_eq_some.mp htab |>.1
    simp only [applyElemInit, hbase, hidx] at happ
    rw [htab] at happ
    dsimp only at happ
    cases hat : applyElemToTable fa fr imports.vm_functions vmctx base
        init.elements table with
    | none => rw [hat] at happ; exact Option.noConfusion happ
    | some table' =>
      rw [hat] at happ
      dsimp only at happ
      cases happ
      obtain ⟨hA, hB, hC⟩ := applyElemToTable_spec fa fr imports.vm_functions
        vmctx base init.elements table table' hat
      refine ⟨rfl, table', ?_, hA, hB,
        elemSlots_characterize fa fr imports.vm_functions vmctx base
          init.elements table' hC⟩
      rw [List.get?_eq_getElem?]
      exact List.getElem?_set_eq_of_lt _ hi

/-- `func_assoc` for the C5 witness: local function 0 has signature id 7,
imported function 0 has signature id 8. -/
def faW : LocalOrImportIdx → Option Nat :=
  fun fi => match fi with
    | .loc 0 => some 7
    | .imp 0 => some 8
    | _ => none

/-- `func_resolver` for the C5 witness: local function 0 compiles to code
pointer 100. -/
def frW : Nat → Option Nat := fun l => if l = 0 then some 100 else none

/-- Imports for the C5 witness: one imported function with pointer 200
and supplied context 999. -/
def importsW : ImportsView := ⟨[], [⟨200, 999⟩]⟩

/-- The C5 witness table: `{min: 2, max: none}`, freshly generated. -/
def tableW : TableState := ⟨List.replicate 2 none, none⟩

/-- The C5 witness element initializer (scenario S6 shape):
`{table 0, base = Const(I32(3)), elements = [local 0, imported 0]}`. -/
def initW : ElemInitializer := ⟨.loc 0, .const (Value.I32 3), [.loc 0, .imp 0]⟩

/-- State before the C5 witness initializer runs. -/
def stW : TableFinalizeState := ⟨[tableW], []⟩

/-- State after the C5 witness initializer runs: the table grew to 5
slots; slot 3 holds the local function, slot 4 the imported one. -/
def stW' : TableFinalizeState :=
  ⟨[⟨[none, none, none, some ⟨100, 555, 7⟩, some ⟨200, 999, 8⟩], none⟩], []⟩

/-- Witness for C5: the scenario-S6-shaped initializer grows the 2-entry
table to 5 entries and writes the resolved local and imported triples at
slots 3 and 4. -/
theorem applyElemInit_spec_witness :
    stW'.importedTables = stW.importedTables ∧
    ∃ table', stW'.localTables.get? 0 = some table' ∧
      (tableW.elements.length < 3 + initW.elements.length →
        table'.elements.length = 3 + initW.elements.length) ∧
      (¬ tableW.elements.length < 3 + initW.elements.length →
        table'.elements.length = tableW.elements.length) ∧
      (∀ j, (hj : j < initW.elements.length) →
        ∃ sig, faW (initW.elements.get ⟨j, hj⟩) = some sig ∧
          ((∃ l f, initW.elements.get ⟨j, hj⟩ = .loc l ∧ frW l = some f ∧
              table'.elements.get? (3 + j) = some (some ⟨f, 555, sig⟩)) ∨
           (∃ k r, initW.elements.get ⟨j, hj⟩ = .imp k ∧
              importsW.vm_functions.get? k = some r ∧
              table'.elements.get? (3 + j)
                = some (some ⟨r.func, r.vmctx, sig⟩)))) :=
  (applyElemInit_spec faW frW importsW 555 stW initW 3 stW'
      rfl (by rfl)).1 0 tableW rfl rfl

/-! ### The import linker: `ImportBacking::new` and the four import
passes (`backing.rs:296-594`). -/

/-- A wasm value type (`types.rs`). -/
inductive WasmTy where
  | i32
  | i64
  | f32
  | f64
  deriving Repr, DecidableEq

/-- `FuncSig` (`types.rs`; spec §6): parameter and result type
sequences.  `==` on it in the source is derived structural equality. -/
structure FuncSig where
  params : List WasmTy
  returns : List WasmTy
  deriving Repr, DecidableEq

/-- `TableDescriptor` (`types.rs`): the only element type is `Anyfunc`, so
only the bounds are carried. -/
structure TableDescriptor where
  minimum : Nat
  maximum : Option Nat
  deriving Repr, DecidableEq

/-- `GlobalDescriptor` (`types.rs`): mutability flag plus value type. -/
structure GlobalDescriptor where
  mutable : Bool
  ty : WasmTy
  deriving Repr, DecidableEq

/-- `export::Context`: the context a supplier attaches to an exported
function — an external context pointer, or `Internal` (use the importing
instance's own VM context). -/
inductive Context where
  | external (ptr : Nat)
  | internal
  deriving Repr, DecidableEq

/-- An exported `Memory` handle as the linker sees it: its descriptor and
the address of its `vm::LocalMemory` record (`vm_local_memory()`). -/
structure MemoryHandle where
  desc : MemoryDescriptor
  vmPtr : Nat
  deriving Repr, DecidableEq

/-- An exported `Table` handle: descriptor plus `vm_local_table()`
address. -/
structure TableHandle where
  desc : TableDescriptor
  vmPtr : Nat
  deriving Repr, DecidableEq

/-- An exported `Global` handle: descriptor plus `vm_local_global()`
address. -/
structure GlobalHandle where
  desc : GlobalDescriptor
  vmPtr : Nat
  deriving Repr, DecidableEq

/-- `export::Export` (`export.rs`): the four export kinds. -/
inductive Export where
  | function (func : Nat) (ctx : Context) (signature : FuncSig)
  | memory (m : MemoryHandle)
  | table (t : TableHandle)
  | global (g : GlobalHandle)
  deriving Repr, DecidableEq

/-- `ImportName` (`module.rs`): namespace and name.  (`namespace` is a
Lean keyword, so the field is `ns`.) -/
structure ImportName where
  ns : String
  name : String
  deriving Repr, DecidableEq

/-- Modelled from the spec (§4.5): the user-supplied `ImportObject`
(`import.rs`, not under `src/`) is a namespace map; lookup walks
namespace then name. -/
abbrev ImportObject : Type := List (String × List (String × Export))

/-- `get_namespace` on the import object. -/
def getNamespace (io : ImportObject) (ns : String) :
    Option (List (String × Export)) :=
  (io.find? (fun p => p.1 == ns)).map (fun p => p.2)

/-- `get_export` within a namespace. -/
def getExport (exports : List (String × Export)) (name : String) :
    Option Export :=
  (exports.find? (fun p => p.1 == name)).map (fun p => p.2)

/-- `imports.get_namespace(namespace).and_then(|ns| ns.get_export(name))`
(`backing.rs:360-362` and its three analogues). -/
def lookupImport (io : ImportObject) (n : ImportName) : Option Export :=
  match getNamespace io n.ns with
  | some nsExports => getExport nsExports n.name
  | none => none

/-- `LinkError` (`error.rs`): the accumulating link-error taxonomy. -/
inductive LinkError where
  | ImportNotFound (ns name : String)
  | IncorrectImportType (ns name expected found : String)
  | IncorrectImportSignature (ns name : String) (expected found : FuncSig)
  | IncorrectMemoryDescriptor (ns name : String)
      (expected found : MemoryDescriptor)
  | IncorrectTableDescriptor (ns name : String)
      (expected found : TableDescriptor)
  | IncorrectGlobalDescriptor (ns name : String)
      (expected found : GlobalDescriptor)
  deriving Repr, DecidableEq

/-- The export-kind name used in `IncorrectImportType`
(`backing.rs:386-393`). -/
def exportTypeName : Export → String
  | .function _ _ _ => "function"
  | .memory _ => "memory"
  | .table _ => "table"
  | .global _ => "global"

/-- Modelled from the spec (§4.5, "Fits-in"):
`MemoryDescriptor::fits_in_imported` lives in `types.rs`, not under
`src/`.  The supplied descriptor fits the expected one iff its minimum is
at least the expected minimum, its maximum is present and at most the
expected maximum whenever the expected maximum is present, and the shared
flag matches exactly. -/
def MemoryDescriptor.fits_in_imported (expected imported : MemoryDescriptor) :
    Bool :=
  imported.shared == expected.shared &&
  expected.minimum ≤ imported.minimum &&
  (match expected.maximum with
   | some emax =>
     match imported.maximum with
     | some imax => imax ≤ emax
     | none => false
   | none => true)

/-- Modelled from the spec (§4.5, "Fits-in"):
`TableDescriptor::fits_in_imported`, same relation for tables. -/
def TableDescriptor.fits_in_imported (expected imported : TableDescriptor) :
    Bool :=
  expected.minimum ≤ imported.minimum &&
  (match expected.maximum with
   | some emax =>
     match imported.maximum with
     | some imax => imax ≤ emax
     | none => false
   | none => true)

/-- The import declarations of `ModuleInner` consumed by the linker
(spec §6): parallel maps of `(ImportName, expected descriptor)`; for
functions the expected descriptor is the signature that
`func_assoc`/`sig_registry` yield for the declared index
(`backing.rs:358-359`). -/
structure ModuleImports where
  imported_functions : List (ImportName × FuncSig)
  imported_memories : List (ImportName × MemoryDescriptor)
  imported_tables : List (ImportName × TableDescriptor)
  imported_globals : List (ImportName × GlobalDescriptor)
  deriving Repr, DecidableEq

/-- The loop body of `import_functions` (`backing.rs:350-415`) over the
declared function imports, yielding the accepted `vm::ImportedFunc`
records and the collected errors, both in declaration order.  Accepted
imports store the supplier's context pointer verbatim when `External`,
and the enclosing instance's `vmctx` when `Internal`. -/
def importFunctionsLoop (io : ImportObject) (vmctx : Nat) :
    List (ImportName × FuncSig) → List ImportedFunc × List LinkError
  | [] => ([], [])
  | (n, expected_sig) :: rest =>
    let prev := importFunctionsLoop io vmctx rest
    match lookupImport io n with
    | some (.function func ctx signature) =>
      if expected_sig = signature then
        (⟨func, match ctx with
                | .external c => c
                | .internal => vmctx⟩ :: prev.1, prev.2)
      else
        (prev.1, .IncorrectImportSignature n.ns n.name expected_sig signature
          :: prev.2)
    | some ex =>
      (prev.1, .IncorrectImportType n.ns n.name "function"
        (exportTypeName ex) :: prev.2)
    | none => (prev.1, .ImportNotFound n.ns n.name :: prev.2)

/-- `import_functions`: `Err` iff any error was collected. -/
def importFunctions (decls : List (ImportName × FuncSig))
    (io : ImportObject) (vmctx : Nat) :
    Except (List LinkError) (List ImportedFunc) :=
  let r := importFunctionsLoop io vmctx decls
  if 0 < r.2.length then .error r.2 else .ok r.1

/-- The loop body of `import_memories` (`backing.rs:417-469`): accepted
handles, their VM record pointers, and the collected errors. -/
def importMemoriesLoop (io : ImportObject) :
    List (ImportName × MemoryDescriptor) →
      (List MemoryHandle × List Nat) × List LinkError
  | [] => (([], []), [])
  | (n, expected) :: rest =>
    let prev := importMemoriesLoop io rest
    match lookupImport io n with
    | some (.memory m) =>
      if MemoryDescriptor.fits_in_imported expected m.desc then
        ((m :: prev.1.1, m.vmPtr :: prev.1.2), prev.2)
      else
        (prev.1, .IncorrectMemoryDescriptor n.ns n.name expected m.desc
          :: prev.2)
    | some ex =>
      (prev.1, .IncorrectImportType n.ns n.name "memory"
        (exportTypeName ex) :: prev.2)
    | none => (prev.1, .ImportNotFound n.ns n.name :: prev.2)

/-- `import_memories`: `Err` iff any error was collected. -/
def importMemories (decls : List (ImportName × MemoryDescriptor))
    (io : ImportObject) :
    Except (List LinkError) (List MemoryHandle × List Nat) :=
  let r := importMemoriesLoop io decls
  if 0 < r.2.length then .error r.2 else .ok r.1

/-- The loop body of `import_tables` (`backing.rs:478-535`). -/
def importTablesLoop (io : ImportObject) :
    List (ImportName × TableDescriptor) →
      (List TableHandle × List Nat) × List LinkError
  | [] => (([], []), [])
  | (n, expected) :: rest =>
    let prev := importTablesLoop io rest
    match lookupImport io n with
    | some (.table t) =>
      if TableDescriptor.fits_in_imported expected t.desc then
        ((t :: prev.1.1, t.vmPtr :: prev.1.2), prev.2)
      else
        (prev.1, .IncorrectTableDescriptor n.ns n.name expected t.desc
          :: prev.2)
    | some ex =>
      (prev.1, .IncorrectImportType n.ns n.name "table"
        (exportTypeName ex) :: prev.2)
    | none => (prev.1, .ImportNotFound n.ns n.name :: prev.2)

/-- `import_tables`: `Err` iff any error was collected. -/
def importTables (decls : List (ImportName × TableDescriptor))
    (io : ImportObject) :
    Except (List LinkError) (List TableHandle × List Nat) :=
  let r := importTablesLoop io decls
  if 0 < r.2.length then .error r.2 else .ok r.1

/-- The loop body of `import_globals` (`backing.rs:537-594`): globals are
accepted on exact descriptor equality. -/
def importGlobalsLoop (io : ImportObject) :
    List (ImportName × GlobalDescriptor) →
      (List GlobalHandle × List Nat) × List LinkError
  | [] => (([], []), [])
  | (n, expected) :: rest =>
    let prev := importGlobalsLoop io rest
    match lookupImport io n with
    | some (.global g) =>
      if g.desc = expected then
        ((g :: prev.1.1, g.vmPtr :: prev.1.2), prev.2)
      else
        (prev.1, .IncorrectGlobalDescriptor n.ns n.name expected g.desc
          :: prev.2)
    | some ex =>
      (prev.1, .IncorrectImportType n.ns n.name "global"
        (exportTypeName ex) :: prev.2)
    | none => (prev.1, .ImportNotFound n.ns n.name :: prev.2)

/-- `import_globals`: `Err` iff any error was collected. -/
def importGlobals (decls : List (ImportName × GlobalDescriptor))
    (io : ImportObject) :
    Except (List LinkError) (List GlobalHandle × List Nat) :=
  let r := importGlobalsLoop io decls
  if 0 < r.2.length then .error r.2 else .ok r.1

/-- `ImportBacking` (`backing.rs:284-294`): the accepted handles and
their parallel VM pointer arrays. -/
structure ImportBacking where
  memories : List MemoryHandle
  tables : List TableHandle
  globals : List GlobalHandle
  vm_functions : List ImportedFunc
  vm_memories : List Nat
  vm_tables : List Nat
  vm_globals : List Nat
  deriving Repr, DecidableEq

/-- The `unwrap_or_else` pattern of `ImportBacking::new`: a failed pass
yields a default (empty) output and contributes its error list; `failed`
is set exactly when some contributed list is nonempty. -/
def passOutput {β : Type} (dflt : β) :
    Except (List LinkError) β → β × List LinkError
  | .ok v => (v, [])
  | .error le => (dflt, le)

/-- `ImportBacking::new` (`backing.rs:296-343`): all four passes run
unconditionally; each failed pass contributes its error list (its output
is replaced by an empty map, and `failed` is set, which is exactly when
the collected error list is nonempty); the result is the complete backing
or the collected errors. -/
def ImportBacking.new (m : ModuleImports) (io : ImportObject)
    (vmctx : Nat) : Except (List LinkError) ImportBacking :=
  let p1 := passOutput [] (importFunctions m.imported_functions io vmctx)
  let p2 := passOutput ([], []) (importMemories m.imported_memories io)
  let p3 := passOutput ([], []) (importTables m.imported_tables io)
  let p4 := passOutput ([], []) (importGlobals m.imported_globals io)
  let link_errors := p1.2 ++ p2.2 ++ p3.2 ++ p4.2
  if 0 < link_errors.length then
    .error link_errors
  else
    .ok ⟨p2.1.1, p3.1.1, p4.1.1, p1.1, p2.1.2, p3.1.2, p4.1.2⟩

/-! ### Characterizing the linker -/

/-- The spec's per-declaration outcome for a function import (§4.5 steps
2-4): `some e` is the single error the declaration contributes, `none`
means it is accepted. -/
def checkFuncImport (io : ImportObject) (d : ImportName × FuncSig) :
    Option LinkError :=
  match lookupImport io d.1 with
  | some (.function _ _ signature) =>
    if d.2 = signature then none
    else some (.IncorrectImportSignature d.1.ns d.1.name d.2 signature)
  | some ex =>
    some (.IncorrectImportType d.1.ns d.1.name "function" (exportTypeName ex))
  | none => some (.ImportNotFound d.1.ns d.1.name)

/-- The spec's per-declaration outcome for a memory import. -/
def checkMemImport (io : ImportObject) (d : ImportName × MemoryDescriptor) :
    Option LinkError :=
  match lookupImport io d.1 with
  | some (.memory mh) =>
    if MemoryDescriptor.fits_in_imported d.2 mh.desc then none
    else some (.IncorrectMemoryDescriptor d.1.ns d.1.name d.2 mh.desc)
  | some ex =>
    some (.IncorrectImportType d.1.ns d.1.name "memory" (exportTypeName ex))
  | none => some (.ImportNotFound d.1.ns d.1.name)

/-- The spec's per-declaration outcome for a table import. -/
def checkTableImport (io : ImportObject) (d : ImportName × TableDescriptor) :
    Option LinkError :=
  match lookupImport io d.1 with
  | some (.table th) =>
    if TableDescriptor.fits_in_imported d.2 th.desc then none
    else some (.IncorrectTableDescriptor d.1.ns d.1.name d.2 th.desc)
  | some ex =>
    some (.IncorrectImportType d.1.ns d.1.name "table" (exportTypeName ex))
  | none => some (.ImportNotFound d.1.ns d.1.name)

/-- The spec's per-declaration outcome for a global import. -/
def checkGlobalImport (io : ImportObject)
    (d : ImportName × GlobalDescriptor) : Option LinkError :=
  match lookupImport io d.1 with
  | some (.global gh) =>
    if gh.desc = d.2 then none
    else some (.IncorrectGlobalDescriptor d.1.ns d.1.name d.2 gh.desc)
  | some ex =>
    some (.IncorrectImportType d.1.ns d.1.name "global" (exportTypeName ex))
  | none => some (.ImportNotFound d.1.ns d.1.name)

/-- The spec-side mismatch list: one entry per mismatching declared
entry, in pass order (functions, memories, tables, globals) and in
declaration order within each pass (§4.5, §7). -/
def linkErrors (m : ModuleImports) (io : ImportObject) : List LinkError :=
  m.imported_functions.filterMap (checkFuncImport io) ++
  m.imported_memories.filterMap (checkMemImport io) ++
  m.imported_tables.filterMap (checkTableImport io) ++
  m.imported_globals.filterMap (checkGlobalImport io)

/-- A `filterMap` has one output per input on which the function fires. -/
theorem length_filterMap_eq_countP {α β : Type} (f : α → Option β)
    (l : List α) :
    (l.filterMap f).length = l.countP (fun a => (f a).isSome) := by
  induction l with
  | nil => rfl
  | cons a l ih =>
    cases hf : f a <;>
      simp [List.filterMap_cons, hf, List.countP_cons, ih]

/-- The function pass collects exactly the per-declaration errors. -/
theorem importFunctionsLoop_errors (io : ImportObject) (vmctx : Nat)
    (decls : List (ImportName × FuncSig)) :
    (importFunctionsLoop io vmctx decls).2
      = decls.filterMap (checkFuncImport io) := by
  induction decls with
  | nil => rfl
  | cons d rest ih =>
    obtain ⟨n, expected⟩ := d
    cases hl : lookupImport io n with
    | none =>
      simp [importFunctionsLoop, checkFuncImport, hl, List.filterMap_cons, ih]
    | some ex =>
      cases ex with
      | function func ctx signature =>
        by_cases hsig : expected = signature
        · simp [importFunctionsLoop, checkFuncImport, hl, hsig,
            List.filterMap_cons, ih]
        · simp [importFunctionsLoop, checkFuncImport, hl, hsig,
            List.filterMap_cons, ih]
      | memory mh =>
        simp [importFunctionsLoop, checkFuncImport, hl,
          List.filterMap_cons, ih]
      | table th =>
        simp [importFunctionsLoop, checkFuncImport, hl,
          List.filterMap_cons, ih]
      | global gh =>
        simp [importFunctionsLoop, checkFuncImport, hl,
          List.filterMap_cons, ih]

/-- The memory pass collects exactly the per-declaration errors. -/
theorem importMemoriesLoop_errors (io : ImportObject)
    (decls : List (ImportName × MemoryDescriptor)) :
    (importMemoriesLoop io decls).2
      = decls.filterMap (checkMemImport io) := by
  induction decls with
  | nil => rfl
  | cons d rest ih =>
    obtain ⟨n, expected⟩ := d
    cases hl : lookupImport io n with
    | none =>
      simp [importMemoriesLoop, checkMemImport, hl, List.filterMap_cons, ih]
    | some ex =>
      cases ex with
      | memory mh =>
        by_cases hfit : MemoryDescriptor.fits_in_imported expected mh.desc
        · simp [importMemoriesLoop, checkMemImport, hl, hfit,
            List.filterMap_cons, ih]
        · simp [importMemoriesLoop, checkMemImport, hl, hfit,
            List.filterMap_cons, ih]
      | function func ctx signature =>
        simp [importMemoriesLoop, checkMemImport, hl,
          List.filterMap_cons, ih]
      | table th =>
        simp [importMemoriesLoop, checkMemImport, hl,
          List.filterMap_cons, ih]
      | global gh =>
        simp [importMemoriesLoop, checkMemImport, hl,
          List.filterMap_cons, ih]

/-- The table pass collects exactly the per-declaration errors. -/
theorem importTablesLoop_errors (io : ImportObject)
    (decls : List (ImportName × TableDescriptor)) :
    (importTablesLoop io decls).2
      = decls.filterMap (checkTableImport io) := by
  induction decls with
  | nil => rfl
  | cons d rest ih =>
    obtain ⟨n, expected⟩ := d
    cases hl : lookupImport io n with
    | none =>
      simp [importTablesLoop, checkTableImport, hl, List.filterMap_cons, ih]
    | some ex =>
      cases ex with
      | table th =>
        by_cases hfit : TableDescriptor.fits_in_imported expected th.desc
        · simp [importTablesLoop, checkTableImport, hl, hfit,
            List.filterMap_cons, ih]
        · simp [importTablesLoop, checkTableImport, hl, hfit,
            List.filterMap_cons, ih]
      | function func ctx signature =>
        simp [importTablesLoop, checkTableImport, hl,
          List.filterMap_cons, ih]
      | memory mh =>
        simp [importTablesLoop, checkTableImport, hl,
          List.filterMap_cons, ih]
      | global gh =>
        simp [importTablesLoop, checkTableImport, hl,
          List.filterMap_cons, ih]

/-- The global pass collects exactly the per-declaration errors. -/
theorem importGlobalsLoop_errors (io : ImportObject)
    (decls : List (ImportName × GlobalDescriptor)) :
    (importGlobalsLoop io decls).2
      = decls.filterMap (checkGlobalImport io) := by
  induction decls with
  | nil => rfl
  | cons d rest ih =>
    obtain ⟨n, expected⟩ := d
    cases hl : lookupImport io n with
    | none =>
      simp [importGlobalsLoop, checkGlobalImport, hl, List.filterMap_cons, ih]
    | some ex =>
      cases ex with
      | global gh =>
        by_cases heq : gh.desc = expected
        · simp [importGlobalsLoop, checkGlobalImport, hl, heq,
            List.filterMap_cons, ih]
        · simp [importGlobalsLoop, checkGlobalImport, hl, heq,
            List.filterMap_cons, ih]
      | function func ctx signature =>
        simp [importGlobalsLoop, checkGlobalImport, hl,
          List.filterMap_cons, ih]
      | memory mh =>
        simp [importGlobalsLoop, checkGlobalImport, hl,
          List.filterMap_cons, ih]
      | table th =>
        simp [importGlobalsLoop, checkGlobalImport, hl,
          List.filterMap_cons, ih]

/-- An error-free function pass accepts one entry per declaration. -/
theorem importFunctionsLoop_length (io : ImportObject) (vmctx : Nat)
    (decls : List (ImportName × FuncSig))
    (hnil : (importFunctionsLoop io vmctx decls).2 = []) :
    (importFunctionsLoop io vmctx decls).1.length = decls.length := by
  induction decls with
  | nil => rfl
  | cons d rest ih =>
    obtain ⟨n, expected⟩ := d
    cases hl : lookupImport io n with
    | none => simp [importFunctionsLoop, hl] at hnil
    | some ex =>
      cases ex with
      | function func ctx signature =>
        by_cases hsig : expected = signature
        · have hnil' : (importFunctionsLoop io vmctx rest).2 = [] := by
            simpa [importFunctionsLoop, hl, hsig] using hnil
          simp [importFunctionsLoop, hl, hsig, ih hnil']
        · simp [importFunctionsLoop, hl, hsig] at hnil
      | memory mh => simp [importFunctionsLoop, hl] at hnil
      | table th => simp [importFunctionsLoop, hl] at hnil
      | global gh => simp [importFunctionsLoop, hl] at hnil

/-- An error-free memory pass accepts one handle and one VM pointer per
declaration. -/
theorem importMemoriesLoop_length (io : ImportObject)
    (decls : List (ImportName × MemoryDescriptor))
    (hnil : (importMemoriesLoop io decls).2 = []) :
    (importMemoriesLoop io decls).1.1.length = decls.length ∧
    (importMemoriesLoop io decls).1.2.length = decls.length := by
  induction decls with
  | nil => exact ⟨rfl, rfl⟩
  | cons d rest ih =>
    obtain ⟨n, expected⟩ := d
    cases hl : lookupImport io n with
    | none => simp [importMemoriesLoop, hl] at hnil
    | some ex =>
      cases ex with
      | memory mh =>
        by_cases hfit : MemoryDescriptor.fits_in_imported expected mh.desc
        · have hnil' : (importMemoriesLoop io rest).2 = [] := by
            simpa [importMemoriesLoop, hl, hfit] using hnil
          obtain ⟨h1, h2⟩ := ih hnil'
          constructor
          · simp [importMemoriesLoop, hl, hfit, h1]
          · simp [importMemoriesLoop, hl, hfit, h2]
        · simp [importMemoriesLoop, hl, hfit] at hnil
      | function func ctx signature => simp [importMemoriesLoop, hl] at hnil
      | table th => simp [importMemoriesLoop, hl] at hnil
      | global gh => simp [importMemoriesLoop, hl] at hnil

/-- An error-free table pass accepts one handle and one VM pointer per
declaration. -/
theorem importTablesLoop_length (io : ImportObject)
    (decls : List (ImportName × TableDescriptor))
    (hnil : (importTablesLoop io decls).2 = []) :
    (importTablesLoop io decls).1.1.length = decls.length ∧
    (importTablesLoop io decls).1.2.length = decls.length := by
  induction decls with
  | nil => exact ⟨rfl, rfl⟩
  | cons d rest ih =>
    obtain ⟨n, expected⟩ := d
    cases hl : lookupImport io n with
    | none => simp [importTablesLoop, hl] at hnil
    | some ex =>
      cases ex with
      | table th =>
        by_cases hfit : TableDescriptor.fits_in_imported expected th.desc
        · have hnil' : (importTablesLoop io rest).2 = [] := by
            simpa [importTablesLoop, hl, hfit] using hnil
          obtain ⟨h1, h2⟩ := ih hnil'
          constructor
          · simp [importTablesLoop, hl, hfit, h1]
          · simp [importTablesLoop, hl, hfit, h2]
        · simp [importTablesLoop, hl, hfit] at hnil
      | function func ctx signature => simp [importTablesLoop, hl] at hnil
      | memory mh => simp [importTablesLoop, hl] at hnil
      | global gh => simp [importTablesLoop, hl] at hnil

/-- An error-free global pass accepts one handle and one VM pointer per
declaration. -/
theorem importGlobalsLoop_length (io : ImportObject)
    (decls : List (ImportName × GlobalDescriptor))
    (hnil : (importGlobalsLoop io decls).2 = []) :
    (importGlobalsLoop io decls).1.1.length = decls.length ∧
    (importGlobalsLoop io decls).1.2.length = decls.length := by
  induction decls with
  | nil => exact ⟨rfl, rfl⟩
  | cons d rest ih =>
    obtain ⟨n, expected⟩ := d
    cases hl : lookupImport io n with
    | none => simp [importGlobalsLoop, hl] at hnil
    | some ex =>
      cases ex with
      | global gh =>
        by_cases heq : gh.desc = expected
        · have hnil' : (importGlobalsLoop io rest).2 = [] := by
            simpa [importGlobalsLoop, hl, heq] using hnil
          obtain ⟨h1, h2⟩ := ih hnil'
          constructor
          · simp [importGlobalsLoop, hl, heq, h1]
          · simp [importGlobalsLoop, hl, heq, h2]
        · simp [importGlobalsLoop, hl, heq] at hnil
      | function func ctx signature => simp [importGlobalsLoop, hl] at hnil
      | memory mh => simp [importGlobalsLoop, hl] at hnil
      | table th => simp [importGlobalsLoop, hl] at hnil

/-- `passOutput` of a pass-shaped `Except` always reports the pass's
error list. -/
theorem passOutput_snd {β : Type} (dflt : β) (r : β × List LinkError) :
    (passOutput dflt
      (if 0 < r.2.length then .error r.2 else .ok r.1)).2 = r.2 := by
  by_cases h : 0 < r.2.length
  · simp [if_pos h, passOutput]
  · have : r.2 = [] := List.length_eq_zero.mp (by omega)
    simp [if_neg h, passOutput, this]

/-- `passOutput` of an error-free pass reports the pass's output. -/
theorem passOutput_fst {β : Type} (dflt : β) (r : β × List LinkError)
    (h : r.2 = []) :
    (passOutput dflt
      (if 0 < r.2.length then .error r.2 else .ok r.1)).1 = r.1 := by
  simp [h, passOutput]

/-- `ImportBacking::new` in closed form: the error list is exactly the
concatenated per-pass mismatch lists, and on success the backing carries
the four passes' outputs. -/
theorem ImportBacking_new_eq (m : ModuleImports) (io : ImportObject)
    (vmctx : Nat) :
    ImportBacking.new m io vmctx
      = if 0 < (linkErrors m io).length then .error (linkErrors m io)
        else .ok ⟨(importMemoriesLoop io m.imported_memories).1.1,
                  (importTablesLoop io m.imported_tables).1.1,
                  (importGlobalsLoop io m.imported_globals).1.1,
                  (importFunctionsLoop io vmctx m.imported_functions).1,
                  (importMemoriesLoop io m.imported_memories).1.2,
                  (importTablesLoop io m.imported_tables).1.2,
                  (importGlobalsLoop io m.imported_globals).1.2⟩ := by
  have hsum : (importFunctionsLoop io vmctx m.imported_functions).2
      ++ (importMemoriesLoop io m.imported_memories).2
      ++ (importTablesLoop io m.imported_tables).2
      ++ (importGlobalsLoop io m.imported_globals).2 = linkErrors m io := by
    rw [linkErrors, importFunctionsLoop_errors, importMemoriesLoop_errors,
      importTablesLoop_errors, importGlobalsLoop_errors]
  simp only [ImportBacking.new, importFunctions, importMemories,
    importTables, importGlobals]
  rw [passOutput_snd, passOutput_snd, passOutput_snd, passOutput_snd, hsum]
  by_cases hc : 0 < (linkErrors m io).length
  · rw [if_pos hc, if_pos hc]
  · rw [if_neg hc, if_neg hc]
    have hnil : linkErrors m io = [] := List.length_eq_zero.mp (by omega)
    have h0 : (importFunctionsLoop io vmctx m.imported_functions).2
        ++ (importMemoriesLoop io m.imported_memories).2
        ++ (importTablesLoop io m.imported_tables).2
        ++ (importGlobalsLoop io m.imported_globals).2 = [] :=
      hsum.trans hnil
    obtain ⟨h123, hE4⟩ := List.append_eq_nil.mp h0
    obtain ⟨h12, hE3⟩ := List.append_eq_nil.mp h123
    obtain ⟨hE1, hE2⟩ := List.append_eq_nil.mp h12
    rw [passOutput_fst _ _ hE1, passOutput_fst _ _ hE2,
      passOutput_fst _ _ hE3, passOutput_fst _ _ hE4]

/-- C3: `ImportBacking::new` returns an error iff at least one declared
entry mismatches (missing → `ImportNotFound`, wrong kind →
`IncorrectImportType`, descriptor/signature-incompatible → the
kind-specific error — this is what `checkFuncImport` &c. encode); the
returned list is exactly the concatenation of the four passes'
per-declaration errors (so all four passes run to completion even when
earlier passes produced errors) with exactly one entry per mismatch; and
on error no partial `ImportBacking` is observable, while on success the
backing is complete (one entry per declared import in every array). -/
theorem ImportBacking_new_spec (m : ModuleImports) (io : ImportObject)
    (vmctx : Nat) :
    ((∃ b, ImportBacking.new m io vmctx = .ok b) ↔ linkErrors m io = []) ∧
    (∀ errs, ImportBacking.new m io vmctx = .error errs →
      errs = linkErrors m io ∧
      errs.length
        = m.imported_functions.countP
            (fun d => (checkFuncImport io d).isSome)
          + m.imported_memories.countP
            (fun d => (checkMemImport io d).isSome)
          + m.imported_tables.countP
            (fun d => (checkTableImport io d).isSome)
          + m.imported_globals.countP
            (fun d => (checkGlobalImport io d).isSome)) ∧
    (∀ b, ImportBacking.new m io vmctx = .ok b →
      b.vm_functions.length = m.imported_functions.length ∧
      b.memories.length = m.imported_memories.length ∧
      b.vm_memories.length = m.imported_memories.length ∧
      b.tables.length = m.imported_tables.length ∧
      b.vm_tables.length = m.imported_tables.length ∧
      b.globals.length = m.imported_globals.length ∧
      b.vm_globals.length = m.imported_globals.length) := by
  have hcount : (linkErrors m io).length
      = m.imported_functions.countP (fun d => (checkFuncImport io d).isSome)
        + m.imported_memories.countP (fun d => (checkMemImport io d).isSome)
        + m.imported_tables.countP (fun d => (checkTableImport io d).isSome)
        + m.imported_globals.countP
            (fun d => (checkGlobalImport io d).isSome) := by
    rw [linkErrors]
    simp only [List.length_append, length_filterMap_eq_countP]
  rw [ImportBacking_new_eq]
  by_cases hc : 0 < (linkErrors m io).length
  · rw [if_pos hc]
    refine ⟨?_, ?_, ?_⟩
    · constructor
      · rintro ⟨b, hb⟩
        exact Except.noConfusion hb
      · intro h
        rw [h] at hc
        simp at hc
    · intro errs herr
      have heq : linkErrors m io = errs := Except.error.inj herr
      exact ⟨heq.symm, by rw [← heq]; exact hcount⟩
    · intro b hb
      exact Except.noConfusion hb
  · rw [if_neg hc]
    have hnil : linkErrors m io = [] := List.length_eq_zero.mp (by omega)
    have h0 : (importFunctionsLoop io vmctx m.imported_functions).2
        ++ (importMemoriesLoop io m.imported_memories).2
        ++ (importTablesLoop io m.imported_tables).2
        ++ (importGlobalsLoop io m.imported_globals).2 = [] := by
      rw [linkErrors] at hnil
      rw [importFunctionsLoop_errors, importMemoriesLoop_errors,
        importTablesLoop_errors, importGlobalsLoop_errors]
      exact hnil
    obtain ⟨h123, hE4⟩ := List.append_eq_nil.mp h0
    obtain ⟨h12, hE3⟩ := List.append_eq_nil.mp h123
    obtain ⟨hE1, hE2⟩ := List.append_eq_nil.mp h12
    refine ⟨⟨fun _ => hnil, fun _ => ⟨_, rfl⟩⟩, ?_, ?_⟩
    · intro errs herr
      exact Except.noConfusion herr
    · intro b hb
      have hb' := Except.ok.inj hb
      rw [← hb']
      obtain ⟨hm1, hm2⟩ := importMemoriesLoop_length io m.imported_memories hE2
      obtain ⟨ht1, ht2⟩ := importTablesLoop_length io m.imported_tables hE3
      obtain ⟨hg1, hg2⟩ := importGlobalsLoop_length io m.imported_globals hE4
      exact ⟨importFunctionsLoop_length io vmctx m.imported_functions hE1,
        hm1, hm2, ht1, ht2, hg1, hg2⟩

/-- The scenario S4 module: a single declared function import `env.foo`. -/
def moduleS4 : ModuleImports :=
  ⟨[(⟨"env", "foo"⟩, ⟨[], []⟩)], [], [], []⟩

/-- Witness for C3, scenario S4: with an empty import object, the linker
returns exactly one `ImportNotFound("env", "foo")`, and the count of
mismatches across all four passes is 1. -/
theorem ImportBacking_new_spec_witness :
    [LinkError.ImportNotFound "env" "foo"] = linkErrors moduleS4 [] ∧
    ([LinkError.ImportNotFound "env" "foo"] : List LinkError).length
      = moduleS4.imported_functions.countP
          (fun d => (checkFuncImport [] d).isSome)
        + moduleS4.imported_memories.countP
          (fun d => (checkMemImport [] d).isSome)
        + moduleS4.imported_tables.countP
          (fun d => (checkTableImport [] d).isSome)
        + moduleS4.imported_globals.countP
          (fun d => (checkGlobalImport [] d).isSome) :=
  (ImportBacking_new_spec moduleS4 [] 0).2.1
    [LinkError.ImportNotFound "env" "foo"] (by rfl)

/-! ### C8: accepted function imports -/

/-- What the successful function pass stores, per declaration. -/
theorem importFunctionsLoop_ok (io : ImportObject) (vmctx : Nat)
    (decls : List (ImportName × FuncSig))
    (hnil : (importFunctionsLoop io vmctx decls).2 = []) :
    ∀ j, (hj : j < decls.length) →
      ∃ func ctx signature,
        lookupImport io (decls.get ⟨j, hj⟩).1
          = some (.function func ctx signature) ∧
        signature = (decls.get ⟨j, hj⟩).2 ∧
        (importFunctionsLoop io vmctx decls).1.get? j
          = some ⟨func,
              match ctx with
              | .external c => c
              | .internal => vmctx⟩ := by
  induction decls with
  | nil => exact fun j hj => absurd hj (Nat.not_lt_zero j)
  | cons d rest ih =>
    obtain ⟨n, expected⟩ := d
    cases hl : lookupImport io n with
    | none => simp [importFunctionsLoop, hl] at hnil
    | some ex =>
      cases ex with
      | function func ctx signature =>
        by_cases hsig : expected = signature
        · have hnil' : (importFunctionsLoop io vmctx rest).2 = [] := by
            simpa [importFunctionsLoop, hl, hsig] using hnil
          have hslots := ih hnil'
          intro j hj
          cases j with
          | zero =>
            refine ⟨func, ctx, signature, ?_, ?_, ?_⟩
            · simpa using hl
            · simpa using hsig.symm
            · simp [importFunctionsLoop, hl, hsig]
          | succ j' =>
            have hj' : j' < rest.length := Nat.lt_of_succ_lt_succ hj
            obtain ⟨f, c, sg, h1, h2, h3⟩ := hslots j' hj'
            refine ⟨f, c, sg, by simpa using h1, by simpa using h2, ?_⟩
            simpa [importFunctionsLoop, hl, hsig] using h3
        · simp [importFunctionsLoop, hl, hsig] at hnil
      | memory mh => simp [importFunctionsLoop, hl] at hnil
      | table th => simp [importFunctionsLoop, hl] at hnil
      | global gh => simp [importFunctionsLoop, hl] at hnil

/-- C8: For every imported function accepted by the linker: acceptance
requires exact structural equality of the expected and supplied
signatures, and the stored `ImportedFunc` carries the enclosing
instance's VM context pointer when the supplied export's context is
`Internal`, and the supplier's context pointer verbatim when
`External`. -/
theorem import_functions_spec (decls : List (ImportName × FuncSig))
    (io : ImportObject) (vmctx : Nat) (fs : List ImportedFunc)
    (hok : importFunctions decls io vmctx = .ok fs) :
    fs.length = decls.length ∧
    ∀ j, (hj : j < decls.length) →
      ∃ func ctx signature,
        lookupImport io (decls.get ⟨j, hj⟩).1
          = some (.function func ctx signature) ∧
        signature = (decls.get ⟨j, hj⟩).2 ∧
        fs.get? j = some ⟨func,
          match ctx with
          | .external c => c
          | .internal => vmctx⟩ := by
  have hnil : (importFunctionsLoop io vmctx decls).2 = [] := by
    by_cases h : 0 < (importFunctionsLoop io vmctx decls).2.length
    · rw [importFunctions] at hok
      rw [if_pos h] at hok
      exact Except.noConfusion hok
    · exact List.length_eq_zero.mp (by omega)
  have hfs : (importFunctionsLoop io vmctx decls).1 = fs := by
    rw [importFunctions] at hok
    rw [if_neg (by rw [hnil]; simp)] at hok
    exact Except.ok.inj hok
  rw [← hfs]
  exact ⟨importFunctionsLoop_length io vmctx decls hnil,
    importFunctionsLoop_ok io vmctx decls hnil⟩

/-- The expected/supplied signature used in the C8 witness. -/
def sigW : FuncSig := ⟨[.i32], [.i32]⟩

/-- The C8 witness declarations: two function imports `env.f`, `env.g`. -/
def declsW : List (ImportName × FuncSig) :=
  [(⟨"env", "f"⟩, sigW), (⟨"env", "g"⟩, sigW)]

/-- The C8 witness import object: both functions present with the
matching signature; `f` with an `External 777` context, `g` with an
`Internal` context. -/
def ioW : ImportObject :=
  [("env", [("f", .function 100 (.external 777) sigW),
            ("g", .function 200 .internal sigW)])]

/-- Witness for C8: with enclosing context 555, `env.f` keeps the
supplier's context 777 verbatim and `env.g` receives 555. -/
theorem import_functions_spec_witness :
    ([⟨100, 777⟩, ⟨200, 555⟩] : List ImportedFunc).length = declsW.length ∧
    ∀ j, (hj : j < declsW.length) →
      ∃ func ctx signature,
        lookupImport ioW (declsW.get ⟨j, hj⟩).1
          = some (.function func ctx signature) ∧
        signature = (declsW.get ⟨j, hj⟩).2 ∧
        ([⟨100, 777⟩, ⟨200, 555⟩] : List ImportedFunc).get? j = some ⟨func,
          match ctx with
          | .external c => c
          | .internal => 555⟩ :=
  import_functions_spec declsW ioW 555 [⟨100, 777⟩, ⟨200, 555⟩] (by rfl)

end Wasmer
